import Mathlib

/-!
Verification of the SeqGAN synthetic-training environment
(`src/environ/synth.py`) and the QA dataset adapter (`src/dataset/qa.py`).

The Python code is shallowly embedded: tensors become lists of reals (or
rationals where the computation is exact), the discriminator and the
generator rollout mechanism become explicit function parameters (they are
external model objects in the source), and the mutable option namespace of
`_create_oracle` becomes explicit state passing.
-/

set_option autoImplicit false

namespace SynthEnv

/-- The two discriminator classes, `LABEL_GEN` and `LABEL_REAL` from `common`
(the module is outside `src/`; only the existence of the two distinct labels
matters to the code under verification). -/
inductive Label where
  | gen
  | real
deriving DecidableEq

/-- Result of `_get_qs` (src/environ/synth.py lines 233-261): the `N x T`
reward matrix produced by `qs.t().detach()`, together with bookkeeping that
the shallow embedding makes explicit: `rolloutSteps` records the loop
variable `n` of every rollout performed (the loop `for n in range(1,
seqlen)`), and `detached` records the final `.detach()` call. -/
structure QsResult where
  qs : List (List ℝ)
  rolloutSteps : List ℕ
  detached : Bool

/-- Tensor transpose `qs.t()` for a rectangular `T x N` matrix stored as a
list of `T` rows of length `N`: row `b` of the transpose collects entry `b`
of every row. -/
def tTranspose (numCols : ℕ) (m : List (List ℝ)) : List (List ℝ) :=
  (List.range numCols).map (fun b => m.map (fun row => row.getD b 0))

/-- Tensor tiling `t.repeat(k, 1)` (src/environ/synth.py line 264): the
`N x T` matrix is stacked `k` times along the row dimension, giving `k*N`
rows; `k = 0` gives an empty tensor. -/
def torchRepeat (k : ℕ) (m : List (List ℕ)) : List (List ℕ) :=
  (List.replicate k m).flatten

/-- Shallow embedding of `SynthEnvironment._get_qs` (src/environ/synth.py
lines 233-261).

Parameters standing for the environment and its collaborators:
`d` is the discriminator `self.d`, mapping a token sequence to its
per-class log-probabilities; `completion n j` is the token sequence that the
generator rollout (`g_ro.rollout`, an external model object driven by the
saved RNG state `ro_rng` and hidden state `ro_hid`) samples for row `j` at
loop step `n` — the source asserts `full_ro.size(1) == self.opts.seqlen`,
i.e. the rollout contract supplies `seqlen - n` tokens.

Control flow mirrored from the source:
* `qs[-1] = self.d(rep_gen_seqs[:qs.size(1)])[:, LABEL_REAL]` — the first
  `batchSize` rows of `repGenSeqs` are scored directly.  The in-place
  assignment into the row `qs[-1]` of size `batchSize` requires the
  right-hand side to broadcast (its length must equal `batchSize`, or be 1);
  otherwise the tensor library raises a shape error, modelled as `.error`.
* if `num_rollouts == 0`: `qs.data[:-1] = qs.data[None, -1].expand(...)`
  broadcasts the final row to all earlier rows, then `qs.data.exp_()` and
  `return qs.t().detach()` — no rollout is performed.
* otherwise, for `n` in `1..seqlen-1`: `full_ro` concatenates the prefix
  `rep_gen_seqs[:, :n]` with the sampled completions, and
  `qs[n-1] = self.d(full_ro).view(num_rollouts, -1, 2).mean(0)[:, LABEL_REAL]`
  (row `j = r*batchSize + b` of `full_ro` contributes to batch column `b`
  of rollout copy `r`); finally `qs.data.exp_()` and `qs.t().detach()`. -/
noncomputable def get_qs (seqlen batchSize numRollouts : ℕ)
    (d : List ℕ → Label → ℝ) (repGenSeqs : List (List ℕ))
    (completion : ℕ → ℕ → List ℕ) : Except String QsResult :=
  let src := repGenSeqs.take batchSize
  if src.length = batchSize ∨ src.length = 1 then
    let lastRow : List ℝ := src.map (fun s => d s Label.real)
    if numRollouts = 0 then
      let qsT : List (List ℝ) := (List.range seqlen).map (fun _ => lastRow)
      Except.ok ⟨tTranspose batchSize (qsT.map (List.map Real.exp)), [], true⟩
    else
      let rolloutRow : ℕ → List ℝ := fun n =>
        (List.range batchSize).map (fun b =>
          (∑ r ∈ Finset.range numRollouts,
            d ((repGenSeqs.getD (r * batchSize + b) []).take n
                ++ completion n (r * batchSize + b)) Label.real)
          / (numRollouts : ℝ))
      let qsT : List (List ℝ) := (List.range seqlen).map (fun t =>
        if t = seqlen - 1 then lastRow else rolloutRow (t + 1))
      Except.ok ⟨tTranspose batchSize (qsT.map (List.map Real.exp)),
        List.range' 1 (seqlen - 1), true⟩
  else
    Except.error "shape mismatch assigning the final row of qs"

/-- Arithmetic mean of a flat list of reals, `t.mean()` over all elements. -/
noncomputable def lmean (l : List ℝ) : ℝ := l.sum / l.length

/-- Unbiased sample variance with Bessel correction (denominator `n - 1`),
matching the default of the tensor library's `t.std()`. -/
noncomputable def lvar (l : List ℝ) : ℝ :=
  ((l.map (fun x => (x - lmean l) ^ 2)).sum) / ((l.length : ℝ) - 1)

/-- Sample standard deviation `t.std()` over all elements. -/
noncomputable def lstd (l : List ℝ) : ℝ := Real.sqrt (lvar l)

/-- Shallow embedding of the normalization step of
`SynthEnvironment._get_advantages` (src/environ/synth.py lines 267-272):
`advs -= advs.mean()`, then `advs /= advs.std()` (the std of the already
mean-subtracted matrix), then `return advs.detach()` — both reductions are
global over the whole `N x T` matrix, not per-timestep.  The Boolean records
the `.detach()`. -/
noncomputable def adv_normalize (m : List (List ℝ)) : List (List ℝ) × Bool :=
  let mu := lmean m.flatten
  let m1 := m.map (List.map (fun x => x - mu))
  let sigma := lstd m1.flatten
  (m1.map (List.map (fun x => x / sigma)), true)

/-- Shallow embedding of `SynthEnvironment._get_advantages`
(src/environ/synth.py lines 263-272): `rep_gen_seqs =
gen_seqs.repeat(self.opts.num_rollouts, 1)`, then `qs_g = self._get_qs(self.g,
rep_gen_seqs)`, then the global mean/std normalization of `adv_normalize`. -/
noncomputable def get_advantages (seqlen batchSize numRollouts : ℕ)
    (d : List ℕ → Label → ℝ) (genSeqs : List (List ℕ))
    (completion : ℕ → ℕ → List ℕ) : Except String (List (List ℝ) × Bool) :=
  match get_qs seqlen batchSize numRollouts d
      (torchRepeat numRollouts genSeqs) completion with
  | Except.error e => Except.error e
  | Except.ok r => Except.ok (adv_normalize r.qs)

/-- Result of `_train_adv_d` (src/environ/synth.py lines 373-401): the
returned scalar loss, plus the number of replay-buffer batches consumed from
`replay_buffer_iter` (made explicit by the embedding). -/
structure AdvDResult where
  loss : ℚ
  rbufBatchesUsed : ℕ
deriving DecidableEq

/-- Shallow embedding of `SynthEnvironment._train_adv_d` (src/environ/synth.py
lines 373-401).

The loss and entropy of a `_forward_d` / `_get_entropy` evaluation are
abstract inputs: `lossReal, entReal` for the oracle batch, `lossGen, entGen`
for the freshly generated batch, and `rbufLoss i, rbufEnt i` for the `i`-th
batch drawn from `replay_buffer_iter`.  `available` is
`len(replay_buffer_iter)`, the number of replay samples the iterator can
still deliver (the replay loader is created outside `src/`; the spec
describes `sample_batches` as capped by available buffer size).

Mirrored source lines: `REAL_W = 0.5`, `GEN_W = 1 - REAL_W`, `RBUF_W = 0.5`;
`loss_d = REAL_W * loss(real)`; `n_rbuf_batches = min(len(replay_buffer_iter)
// batch_size, 4)`; `cur_w = GEN_W`, halved (`cur_w *= RBUF_W`) when
`n_rbuf_batches` is nonzero, in which case `rbuf_batch_w = GEN_W * RBUF_W /
n_rbuf_batches`; the generated batch and each replay batch are accumulated
with their weights into both the loss and the entropy; the return value is
`loss_d - entropy_d * self.opts.d_ent_reg`. -/
def train_adv_d (dEntReg : ℚ) (available batchSize : ℕ)
    (lossReal entReal lossGen entGen : ℚ) (rbufLoss rbufEnt : ℕ → ℚ) :
    AdvDResult :=
  let REAL_W : ℚ := 1/2
  let GEN_W : ℚ := 1 - REAL_W
  let RBUF_W : ℚ := 1/2
  let loss0 := REAL_W * lossReal
  let ent0 := REAL_W * entReal
  let nRbufBatches := min (available / batchSize) 4
  let curW := if nRbufBatches ≠ 0 then GEN_W * RBUF_W else GEN_W
  let rbufBatchW := GEN_W * RBUF_W / (nRbufBatches : ℚ)
  let loss1 := loss0 + curW * lossGen
  let ent1 := ent0 + curW * entGen
  let loss2 := loss1 + ((List.range nRbufBatches).map
    (fun i => rbufBatchW * rbufLoss i)).sum
  let ent2 := ent1 + ((List.range nRbufBatches).map
    (fun i => rbufBatchW * rbufEnt i)).sum
  ⟨loss2 - ent2 * dEntReg, nRbufBatches⟩

/-- Observable actions of one iteration of the adversarial training loop
`train_adv` (src/environ/synth.py lines 302-329), in the order the source
performs them. -/
inductive AdvEvent where
  | gZeroGrad
  | gLossBackward
  | gStep
  | dZeroGrad
  | dLossBackward
  | gnormCompute
  | gnormBackward
  | dStep
  | computeAcc
deriving DecidableEq, BEq

/-- Event trace of one iteration of `SynthEnvironment.train_adv`
(src/environ/synth.py lines 302-329), as a function of the option
`grad_reg` (a float; Python truthiness makes `if not self.opts.grad_reg`
the test `grad_reg == 0`):

`self.optim_g.zero_grad()`; `loss_g.backward(...)`; `if not grad_reg:
optim_g.step()`; `optim_d.zero_grad()`; `loss_d.backward(...)`; the
gradient-norm penalty `gnorm` is computed (lines 319-321); `if grad_reg:
gnorm.backward(); optim_g.step()`; `optim_d.step()`; finally
`self._compute_test_acc()` is called (line 329). -/
def adv_iter_trace (gradReg : ℚ) : List AdvEvent :=
  [AdvEvent.gZeroGrad, AdvEvent.gLossBackward]
    ++ (if gradReg = 0 then [AdvEvent.gStep] else [])
    ++ [AdvEvent.dZeroGrad, AdvEvent.dLossBackward, AdvEvent.gnormCompute]
    ++ (if gradReg = 0 then [] else [AdvEvent.gnormBackward, AdvEvent.gStep])
    ++ [AdvEvent.dStep, AdvEvent.computeAcc]

/-- The option namespace `self.opts` as seen by `_create_oracle`
(src/environ/synth.py lines 73-84).  In Python `vars(self.opts)` returns the
`__dict__` of the options object itself, so `opt_vars.pop('rnn_dim')`
removes the key from the shared, mutable namespace: `rnnDim` is an `Option`
to model presence of the `'rnn_dim'` key, and the remaining fields are the
seed and representative further options. -/
structure SynthOpts where
  seed : ℤ
  rnnDim : Option ℕ
  oracleDim : ℕ
  vocabSize : ℕ
deriving DecidableEq

/-- Shallow embedding of `SynthEnvironment._create_oracle`
(src/environ/synth.py lines 73-84).

Modelled from the spec: `common.rand_state(torch, seed)` and
`model.generator.create` / `nn.init.normal` live outside `src/`; per the
spec (§4.1, §5) `rand_state` scopes the global RNG to the given seed and
restores the ambient state on exit, and each oracle parameter is drawn from
a Gaussian with `std=1`.  `gauss seed i` stands for the `i`-th standard
normal variate of the seed-determined stream, `numParams` for the parameter
count of the created generator, and `ambient` for the global RNG state
outside the `rand_state` scope (returned unchanged, since the scope restores
it).

Mirrored from the source: `opt_vars = vars(self.opts)` aliases the options
dictionary, `opt_vars.pop('rnn_dim')` raises `KeyError` (here: `none`) when
the key is absent and otherwise removes it from the shared options; each
parameter is initialized with `nn.init.normal(param, std=1)`, modelled as
`1 * gauss seed i`. -/
def create_oracle (gauss : ℤ → ℕ → ℚ) (numParams : ℕ) (ambient : ℤ)
    (opts : SynthOpts) : Option (List ℚ × SynthOpts × ℤ) :=
  match opts.rnnDim with
  | none => none
  | some _ =>
    let optsAfterPop : SynthOpts := { opts with rnnDim := none }
    let params := (List.range numParams).map (fun i => 1 * gauss opts.seed i)
    some (params, optsAfterPop, ambient)

/-- Chunking `torch.randperm(len(dataset)).split(batch_size)`
(src/environ/synth.py line 284): successive chunks of `batch_size` indices,
the last chunk possibly shorter.  A zero split size is rejected by the
tensor library; the embedding returns no chunks for it (the claims assume a
positive batch size). -/
def split_batches : List ℕ → ℕ → List (List ℕ)
  | _, 0 => []
  | [], _ + 1 => []
  | x :: xs, b + 1 => (x :: xs).take (b + 1) :: split_batches (xs.drop b) (b + 1)
termination_by l _ => l.length
decreasing_by simp [List.length_drop]; omega

/-- Index batches produced by one epoch of `SynthEnvironment._ds_iter`
(src/environ/synth.py lines 278-287): `batch_idxs =
torch.randperm(len(dataset)).split(batch_size)`, and `if len(dataset) %
batch_size: batch_idxs = batch_idxs[:-1]` drops the trailing partial chunk.
`perm` is the emitted permutation of `range(len(dataset))` (only its length
matters here). -/
def ds_iter_idx_batches (perm : List ℕ) (batchSize : ℕ) : List (List ℕ) :=
  let chunks := split_batches perm batchSize
  if perm.length % batchSize ≠ 0 then chunks.dropLast else chunks

/-- Batches yielded by one epoch of `_ds_iter`: `yield
dataset[next(batch_idxs_it)]` looks every index of a chunk up in the
dataset (`ds`). -/
def ds_iter_yield (ds : ℕ → ℤ) (perm : List ℕ) (batchSize : ℕ) :
    List (List ℤ) :=
  (ds_iter_idx_batches perm batchSize).map (List.map ds)

/-- Module-level names bound in `src/environ/synth.py` when
`_compute_test_acc` runs: the imports of lines 3-16 and the class itself. -/
def synthModuleNames : List String :=
  ["logging", "time", "torch", "nn", "Variable", "nnf",
   "common", "LABEL_GEN", "LABEL_REAL", "dataset", "model",
   "Environment", "SynthEnvironment"]

/-- Python builtins referenced by `_compute_test_acc`. -/
def pythonBuiltins : List String :=
  ["max", "len", "enumerate", "next", "range"]

/-- Local names of `SynthEnvironment._compute_test_acc`
(src/environ/synth.py lines 120-140): its parameters and every name the
function body assigns before (or in the loop iteration containing)
line 129. -/
def computeTestAccLocals : List String :=
  ["self", "num_samples", "num_test_batches", "oracle_test_loader",
   "acc_oracle", "i", "batch"]

/-- Name resolution for code inside `_compute_test_acc`: locals, then module
globals, then builtins. -/
def resolvesInTestAcc (n : String) : Bool :=
  (computeTestAccLocals ++ synthModuleNames ++ pythonBuiltins).contains n

/-- Free (read) names of `_compute_test_acc` in first-evaluation order, from
src/environ/synth.py lines 121-129: line 121 `max(num_samples //
len(self.init_toks), 1)`, line 123 `self._create_dataloader(...)`, line 125
`enumerate(oracle_test_loader)`, line 126 `i == num_test_batches`, and
line 129 `Variable(next(test_loader)[0][:, 1:].cuda())`. -/
def computeTestAccFreeNames : List String :=
  ["max", "num_samples", "len", "self", "enumerate", "oracle_test_loader",
   "i", "num_test_batches", "Variable", "next", "test_loader"]

/-- First name of `_compute_test_acc` whose lookup fails — evaluating that
name raises `NameError`, aborting the call. -/
def computeTestAccFirstNameError : Option String :=
  computeTestAccFreeNames.find? (fun n => ! resolvesInTestAcc n)

end SynthEnv

namespace QA

/-- Helper for Python `str.split(' ')`: walks the character list, cutting at
every space and keeping empty fields; `acc` holds the characters of the
current field in reverse. -/
def pySplitAux : List Char → List Char → List String
  | [], acc => [String.mk acc.reverse]
  | c :: rest, acc =>
    if c = ' ' then String.mk acc.reverse :: pySplitAux rest []
    else pySplitAux rest (c :: acc)

/-- Python `q.split(' ')` with an explicit separator: splits at every single
space and keeps empty fields, so the empty string yields `[""]` and
consecutive spaces yield empty tokens. -/
def pySplitSpace (q : String) : List String :=
  pySplitAux q.data []

/-- The token list kept by `QADataset.__getitem__` (src/dataset/qa.py
line 29): `toks = q.split(' ')[:self.seqlen-1]`.  The slice `[:seqlen-1]`
is `take (seqlen-1)` for `seqlen >= 1` and, for `seqlen == 0`, the Python
negative slice `[:-1]`, i.e. `dropLast`. -/
def keptToks (seqlen : ℕ) (q : String) : List String :=
  let parts := pySplitSpace q
  if seqlen = 0 then parts.dropLast else parts.take (seqlen - 1)

/-- Concrete vocabulary used to instantiate the QA dataset theorems: the
BOS token maps to index 1, the EOS token to index 2, everything else
(including the empty-string token) to 0. -/
def qaTestVocab : String → ℕ :=
  fun s => if s = "<bos>" then 1 else if s = "<eos>" then 2 else 0

/-- Shallow embedding of `QADataset.__getitem__` (src/dataset/qa.py lines
27-40) at one question string `q`: `qtoks = torch.LongTensor(seqlen +
1).zero_()`; `qtoks[0] = vocab[BOS]`; `for i, tok in enumerate(toks, 1):
qtoks[i] = vocab[tok]`; `qtoks[len(toks)] = vocab[EOS]`; returns `{'toks':
qtoks, 'labels': 1}`.  The vocabulary lookup and the `BOS`/`EOS` token
strings come from `common` (outside `src/`) and are abstract parameters. -/
def qaGetItem (vocab : String → ℕ) (bos eos : String) (seqlen : ℕ)
    (q : String) : List ℕ × ℕ :=
  let toks := keptToks seqlen q
  let qtoks0 := List.replicate (seqlen + 1) 0
  let qtoks1 := qtoks0.set 0 (vocab bos)
  let qtoks2 := (List.enumFrom 1 toks).foldl
    (fun acc p => acc.set p.1 (vocab p.2)) qtoks1
  let qtoks3 := qtoks2.set toks.length (vocab eos)
  (qtoks3, 1)

end QA

namespace SynthEnv

/-- C1: with `num_rollouts > 0`, `_get_qs` succeeds and its result has
`batchSize` rows of `seqlen` entries each (`N x T`); the entry of every row
at the final timestep is the exponentiated REAL-class log-probability that
the discriminator assigns to that row's completed sequence directly; the
result is detached; and no rollout is performed for the final timestep (the
rollout loop covers steps `1..seqlen-1` only, and the final row corresponds
to step `seqlen`). -/
theorem get_qs_final_timestep (seqlen batchSize numRollouts : ℕ)
    (d : List ℕ → Label → ℝ) (repGenSeqs : List (List ℕ))
    (completion : ℕ → ℕ → List ℕ)
    (hnr : 0 < numRollouts) (hT : 0 < seqlen)
    (hrep : batchSize ≤ repGenSeqs.length) :
    ∃ r : QsResult,
      get_qs seqlen batchSize numRollouts d repGenSeqs completion
          = Except.ok r
        ∧ r.qs.length = batchSize
        ∧ (∀ row ∈ r.qs, row.length = seqlen)
        ∧ (∀ b, b < batchSize →
            (r.qs.getD b []).getD (seqlen - 1) 0
              = Real.exp (d (repGenSeqs.getD b []) Label.real))
        ∧ r.detached = true
        ∧ seqlen ∉ r.rolloutSteps := by
  have hsrc : (repGenSeqs.take batchSize).length = batchSize := by
    rw [List.length_take]
    omega
  have hok : get_qs seqlen batchSize numRollouts d repGenSeqs completion
      = Except.ok ⟨tTranspose batchSize
          (((List.range seqlen).map (fun t =>
            if t = seqlen - 1 then
              (repGenSeqs.take batchSize).map (fun s => d s Label.real)
            else
              (List.range batchSize).map (fun b =>
                (∑ r ∈ Finset.range numRollouts,
                  d ((repGenSeqs.getD (r * batchSize + b) []).take (t + 1)
                      ++ completion (t + 1) (r * batchSize + b)) Label.real)
                / (numRollouts : ℝ)))).map (List.map Real.exp)),
          List.range' 1 (seqlen - 1), true⟩ := by
    simp only [get_qs]
    rw [if_pos (Or.inl hsrc), if_neg (Nat.pos_iff_ne_zero.mp hnr)]
  refine ⟨_, hok, ?_, ?_, ?_, rfl, ?_⟩
  · simp [tTranspose]
  · intro row hrow
    simp only [tTranspose] at hrow
    rcases List.mem_map.mp hrow with ⟨b, _hb, rfl⟩
    simp
  · intro b hb
    have hlt : b < (List.range batchSize).length := by simp [hb]
    have hq : (tTranspose batchSize
          (((List.range seqlen).map (fun t =>
            if t = seqlen - 1 then
              (repGenSeqs.take batchSize).map (fun s => d s Label.real)
            else
              (List.range batchSize).map (fun b =>
                (∑ r ∈ Finset.range numRollouts,
                  d ((repGenSeqs.getD (r * batchSize + b) []).take (t + 1)
                      ++ completion (t + 1) (r * batchSize + b)) Label.real)
                / (numRollouts : ℝ)))).map (List.map Real.exp))).getD b []
        = (((List.range seqlen).map (fun t =>
            if t = seqlen - 1 then
              (repGenSeqs.take batchSize).map (fun s => d s Label.real)
            else
              (List.range batchSize).map (fun b =>
                (∑ r ∈ Finset.range numRollouts,
                  d ((repGenSeqs.getD (r * batchSize + b) []).take (t + 1)
                      ++ completion (t + 1) (r * batchSize + b)) Label.real)
                / (numRollouts : ℝ)))).map (List.map Real.exp)).map
            (fun row => row.getD b 0) := by
      rw [tTranspose, List.getD_eq_getElem _ _ (by simpa using hb),
        List.getElem_map, List.getElem_range]
    rw [hq]
    have hT1 : seqlen - 1 < seqlen := by omega
    rw [List.getD_eq_getElem _ _ (by simpa using hT1), List.getElem_map,
      List.getElem_map, List.getElem_map, List.getElem_range]
    rw [if_pos rfl]
    rw [List.getD_eq_getElem _ _
        (by simp only [List.length_map, hsrc]; exact hb), List.getElem_map,
      List.getElem_map, List.getElem_take]
    rw [List.getD_eq_getElem _ _ (by omega)]
  · simp only [List.mem_range'_1]
    omega

/-- Witness for C1: `seqlen = 2`, one sequence, one rollout, the constant-0
discriminator. -/
theorem get_qs_final_timestep_witness :
    (0 < 1) ∧ (0 < 2) ∧ (1 ≤ ([[5, 6]] : List (List ℕ)).length) ∧
    (∃ r : QsResult,
      get_qs 2 1 1 (fun _ _ => 0) [[5, 6]] (fun _ _ => [7]) = Except.ok r
        ∧ r.qs.length = 1
        ∧ (∀ row ∈ r.qs, row.length = 2)
        ∧ (∀ b, b < 1 →
            (r.qs.getD b []).getD (2 - 1) 0 = Real.exp 0)
        ∧ r.detached = true
        ∧ 2 ∉ r.rolloutSteps) :=
  ⟨by decide, by decide, by decide,
   get_qs_final_timestep 2 1 1 (fun _ _ => 0) [[5, 6]] (fun _ _ => [7])
     (by decide) (by decide) (by decide)⟩

/-- C3 (code bug): with `num_rollouts == 0`, `_get_advantages` builds
`rep_gen_seqs = gen_seqs.repeat(0, 1)`, a tensor with zero rows, so the very
first statement of `_get_qs` — the assignment of
`self.d(rep_gen_seqs[:batch_size])[:, LABEL_REAL]` (an empty vector) into
the row `qs[-1]` of size `batch_size` — fails with a broadcast shape error
before the dedicated `num_rollouts == 0` branch can return its broadcast
estimate.  Concrete run: a 2 x 3 generated batch. -/
theorem get_advantages_num_rollouts_zero_errors :
    torchRepeat 0 ([[1, 2, 3], [4, 5, 6]] : List (List ℕ)) = []
    ∧ get_advantages 3 2 0 (fun _ _ => 0) [[1, 2, 3], [4, 5, 6]]
        (fun _ _ => [])
      = Except.error "shape mismatch assigning the final row of qs" :=
  ⟨rfl, rfl⟩

/-- C6: in every adversarial training iteration with gradient-penalty
regularization enabled (`grad_reg` nonzero), the generator optimizer step
happens only after the gradient-norm penalty has been computed and
backpropagated (and it happens exactly once); with `grad_reg` zero the
generator optimizer step executes immediately after the generator loss
backward. -/
theorem train_adv_two_phase_update (g : ℚ) (hg : g ≠ 0) :
    (adv_iter_trace g).count AdvEvent.gStep = 1 ∧
    (adv_iter_trace g).indexOf AdvEvent.gnormCompute <
      (adv_iter_trace g).indexOf AdvEvent.gnormBackward ∧
    (adv_iter_trace g).indexOf AdvEvent.gnormBackward <
      (adv_iter_trace g).indexOf AdvEvent.gStep ∧
    (adv_iter_trace 0).count AdvEvent.gStep = 1 ∧
    (adv_iter_trace 0).indexOf AdvEvent.gStep =
      (adv_iter_trace 0).indexOf AdvEvent.gLossBackward + 1 := by
  have h : adv_iter_trace g =
      [AdvEvent.gZeroGrad, AdvEvent.gLossBackward, AdvEvent.dZeroGrad,
       AdvEvent.dLossBackward, AdvEvent.gnormCompute, AdvEvent.gnormBackward,
       AdvEvent.gStep, AdvEvent.dStep, AdvEvent.computeAcc] := by
    simp [adv_iter_trace, hg]
  rw [h]
  exact ⟨by decide, by decide, by decide, by decide, by decide⟩

/-- Witness for C6 at the concrete regularization weight `grad_reg = 1`. -/
theorem train_adv_two_phase_update_witness :
    (adv_iter_trace 1).count AdvEvent.gStep = 1 ∧
    (adv_iter_trace 1).indexOf AdvEvent.gnormCompute <
      (adv_iter_trace 1).indexOf AdvEvent.gnormBackward ∧
    (adv_iter_trace 1).indexOf AdvEvent.gnormBackward <
      (adv_iter_trace 1).indexOf AdvEvent.gStep ∧
    (adv_iter_trace 0).count AdvEvent.gStep = 1 ∧
    (adv_iter_trace 0).indexOf AdvEvent.gStep =
      (adv_iter_trace 0).indexOf AdvEvent.gLossBackward + 1 :=
  train_adv_two_phase_update 1 (by norm_num)

/-- C9 (code bug): `_compute_test_acc` reads the name `test_loader`
(src/environ/synth.py line 129), which is neither a local of the function,
nor a module-level name of synth.py, nor a builtin — the lookup fails, so
the first loop iteration raises `NameError` and the adversarial phase, which
calls `_compute_test_acc` every iteration (line 329, the `computeAcc` event
of the trace), aborts with a structural error instead of executing. -/
theorem compute_test_acc_name_error :
    computeTestAccFirstNameError = some "test_loader" ∧
    (∀ g : ℚ, AdvEvent.computeAcc ∈ adv_iter_trace g) := by
  refine ⟨rfl, fun g => ?_⟩
  by_cases hg : g = 0 <;> simp [adv_iter_trace, hg]

/-- C7 (code bug): `_create_oracle` pops `'rnn_dim'` from `vars(self.opts)`,
which aliases the option namespace, so a first invocation succeeds (each
parameter drawn with `std=1` from the seed-scoped Gaussian stream) but
removes the key from the shared options; a second invocation on the same,
now mutated, options raises `KeyError` (modelled as `none`) instead of
producing bit-identical parameters.  Concrete run: seed 7, Gaussian stream
`gauss s i = s + i`, 3 parameters, ambient RNG state 5. -/
theorem create_oracle_second_invocation_fails :
    (create_oracle (fun s i => (s : ℚ) + (i : ℚ)) 3 5 ⟨7, some 32, 128, 100⟩
      = some ([7, 8, 9], ⟨7, none, 128, 100⟩, 5)) ∧
    ((create_oracle (fun s i => (s : ℚ) + (i : ℚ)) 3 5 ⟨7, some 32, 128, 100⟩).bind
      (fun r => create_oracle (fun s i => (s : ℚ) + (i : ℚ)) 3 r.2.2 r.2.1)
      = none) := by
  constructor
  · simp [create_oracle, List.range_succ]
    norm_num
  · simp [create_oracle]

lemma split_batches_ne_nil (xs : List ℕ) (b : ℕ) (hx : xs ≠ []) :
    split_batches xs (b + 1) ≠ [] := by
  cases xs with
  | nil => exact absurd rfl hx
  | cons x t => simp [split_batches]

lemma ds_iter_spec_succ (b : ℕ) : ∀ (k : ℕ) (xs : List ℕ), xs.length ≤ k →
    (∀ c ∈ ds_iter_idx_batches xs (b + 1), c.length = b + 1) ∧
    (ds_iter_idx_batches xs (b + 1)).length = xs.length / (b + 1) := by
  intro k
  induction k with
  | zero =>
    intro xs hlen
    have hx : xs = [] := List.length_eq_zero.mp (Nat.le_zero.mp hlen)
    subst hx
    refine ⟨fun c hc => ?_, ?_⟩
    · simp [ds_iter_idx_batches, split_batches] at hc
    · simp [ds_iter_idx_batches, split_batches]
  | succ k ih =>
    intro xs hlen
    cases xs with
    | nil =>
      refine ⟨fun c hc => ?_, ?_⟩
      · simp [ds_iter_idx_batches, split_batches] at hc
      · simp [ds_iter_idx_batches, split_batches]
    | cons x t =>
      have hlc : (x :: t).length = t.length + 1 := List.length_cons x t
      by_cases hsmall : t.length + 1 < b + 1
      · have htake : (x :: t).take (b + 1) = x :: t := by
          apply List.take_of_length_le
          rw [hlc]
          omega
        have hdrop : t.drop b = [] := by
          apply List.drop_eq_nil_of_le
          omega
        have hsplit : split_batches (x :: t) (b + 1) = [x :: t] := by
          rw [split_batches, htake, hdrop, split_batches]
        have hcond : (x :: t).length % (b + 1) ≠ 0 := by
          rw [hlc, Nat.mod_eq_of_lt (by omega)]
          omega
        have hres : ds_iter_idx_batches (x :: t) (b + 1) = [] := by
          simp only [ds_iter_idx_batches]
          rw [if_pos hcond, hsplit]
          rfl
        rw [hres]
        refine ⟨fun c hc => ?_, ?_⟩
        · simp at hc
        · rw [hlc, Nat.div_eq_of_lt (by omega)]
          rfl
      · have hdl : (t.drop b).length = t.length - b := List.length_drop b t
        have hlen2 : (t.drop b).length ≤ k := by
          rw [hdl]
          rw [hlc] at hlen
          omega
        have hrec := ih (t.drop b) hlen2
        have htakelen : ((x :: t).take (b + 1)).length = b + 1 := by
          rw [List.length_take, hlc]
          omega
        have hmod : (x :: t).length % (b + 1) = (t.drop b).length % (b + 1) := by
          rw [hlc, hdl, Nat.mod_eq_sub_mod (by omega)]
          congr 1
          omega
        have hdiv : (x :: t).length / (b + 1) = (t.drop b).length / (b + 1) + 1 := by
          rw [hlc, hdl, Nat.div_eq_sub_div (Nat.succ_pos b) (by omega)]
          have harg : t.length + 1 - (b + 1) = t.length - b := by omega
          rw [harg]
        have hsplit : split_batches (x :: t) (b + 1)
            = (x :: t).take (b + 1) :: split_batches (t.drop b) (b + 1) := by
          rw [split_batches]
        by_cases hm : (x :: t).length % (b + 1) = 0
        · have hm2 : (t.drop b).length % (b + 1) = 0 := by rw [← hmod]; exact hm
          have hend : ds_iter_idx_batches (x :: t) (b + 1)
              = (x :: t).take (b + 1) :: ds_iter_idx_batches (t.drop b) (b + 1) := by
            simp only [ds_iter_idx_batches]
            rw [if_neg (not_not_intro hm), if_neg (not_not_intro hm2), hsplit]
          rw [hend]
          refine ⟨fun c hc => ?_, ?_⟩
          · rcases List.mem_cons.mp hc with h | h
            · rw [h]; exact htakelen
            · exact hrec.1 c h
          · rw [List.length_cons, hrec.2, hdiv]
        · have hm2 : (t.drop b).length % (b + 1) ≠ 0 := by rw [← hmod]; exact hm
          have hne : split_batches (t.drop b) (b + 1) ≠ [] := by
            apply split_batches_ne_nil
            intro hnil
            apply hm2
            rw [hnil]
            simp
          have hend : ds_iter_idx_batches (x :: t) (b + 1)
              = (x :: t).take (b + 1) :: ds_iter_idx_batches (t.drop b) (b + 1) := by
            simp only [ds_iter_idx_batches]
            rw [if_pos hm, if_pos hm2, hsplit, List.dropLast_cons_of_ne_nil hne]
          rw [hend]
          refine ⟨fun c hc => ?_, ?_⟩
          · rcases List.mem_cons.mp hc with h | h
            · rw [h]; exact htakelen
            · exact hrec.1 c h
          · rw [List.length_cons, hrec.2, hdiv]


/-- C8: when the dataset length is not a multiple of `batch_size`, `_ds_iter`
silently drops the trailing partial batch: every batch it yields has exactly
`batch_size` elements, and the number of yielded batches is
`len(dataset) // batch_size`. -/
theorem ds_iter_drops_trailing_partial_batch (ds : ℕ → ℤ) (perm : List ℕ)
    (bs : ℕ) (hbs : 0 < bs) (_hrem : perm.length % bs ≠ 0) :
    (∀ batch ∈ ds_iter_yield ds perm bs, batch.length = bs) ∧
    (ds_iter_yield ds perm bs).length = perm.length / bs := by
  obtain ⟨b, rfl⟩ := Nat.exists_eq_succ_of_ne_zero (Nat.pos_iff_ne_zero.mp hbs)
  have h := ds_iter_spec_succ b perm.length perm le_rfl
  refine ⟨fun batch hb => ?_, ?_⟩
  · rw [ds_iter_yield] at hb
    rcases List.mem_map.mp hb with ⟨c, hc, rfl⟩
    rw [List.length_map]
    exact h.1 c hc
  · rw [ds_iter_yield, List.length_map]
    exact h.2

/-- Witness for C8: a 5-element dataset iterated with `batch_size = 2`
yields exactly two batches of two elements each. -/
theorem ds_iter_drops_trailing_partial_batch_witness :
    (0 < 2) ∧ ([0, 1, 2, 3, 4] : List ℕ).length % 2 ≠ 0 ∧
    ((∀ batch ∈ ds_iter_yield (fun i => (i : ℤ)) [0, 1, 2, 3, 4] 2,
        batch.length = 2) ∧
      (ds_iter_yield (fun i => (i : ℤ)) [0, 1, 2, 3, 4] 2).length
        = ([0, 1, 2, 3, 4] : List ℕ).length / 2) :=
  ⟨by decide, by decide,
   ds_iter_drops_trailing_partial_batch (fun i => (i : ℤ)) [0, 1, 2, 3, 4] 2
     (by decide) (by decide)⟩

/-- C4: the `_train_adv_d` loss is the weighted mixture of the claim: the
real-data loss is weighted `0.5`; the freshly-generated loss is weighted
`0.5` when no replay batch is used (`min(available // batch_size, 4) = 0`)
and `0.25` otherwise; each of the `n` replay batches carries weight
`0.25 / n` (so the replay weight `0.25` is spread evenly: the second
conjunct); and the identically weighted entropy mixture times `d_ent_reg`
is subtracted from the total. -/
theorem train_adv_d_mixture_weights (dEntReg : ℚ) (available batchSize : ℕ)
    (_hbs : 0 < batchSize) (lR eR lG eG : ℚ) (rbufLoss rbufEnt : ℕ → ℚ) :
    (train_adv_d dEntReg available batchSize lR eR lG eG rbufLoss rbufEnt).loss
      = (1/2) * lR
        + (if min (available / batchSize) 4 = 0 then (1/2 : ℚ) else 1/4) * lG
        + ((List.range (min (available / batchSize) 4)).map
            (fun i => (1/4 : ℚ) / ((min (available / batchSize) 4 : ℕ) : ℚ)
              * rbufLoss i)).sum
        - ((1/2) * eR
          + (if min (available / batchSize) 4 = 0 then (1/2 : ℚ) else 1/4) * eG
          + ((List.range (min (available / batchSize) 4)).map
              (fun i => (1/4 : ℚ) / ((min (available / batchSize) 4 : ℕ) : ℚ)
                * rbufEnt i)).sum) * dEntReg
      ∧ (0 < min (available / batchSize) 4 →
          ((min (available / batchSize) 4 : ℕ) : ℚ)
            * ((1/4 : ℚ) / ((min (available / batchSize) 4 : ℕ) : ℚ)) = 1/4) := by
  constructor
  · by_cases hn : min (available / batchSize) 4 = 0
    · simp only [train_adv_d, hn, ne_eq, not_true_eq_false, if_false, ite_true,
        ite_false, List.range_zero, List.map_nil, List.sum_nil]
      norm_num
    · simp only [train_adv_d, hn, ne_eq, not_false_iff, if_true, ite_true,
        ite_false]
      simp only [show ((1:ℚ) - 1/2) * (1/2) = 1/4 from by norm_num]
  · intro hn
    have hne : ((min (available / batchSize) 4 : ℕ) : ℚ) ≠ 0 := by
      exact_mod_cast Nat.pos_iff_ne_zero.mp hn
    calc ((min (available / batchSize) 4 : ℕ) : ℚ)
          * ((1/4 : ℚ) / ((min (available / batchSize) 4 : ℕ) : ℚ))
        = (1/4 : ℚ) * (((min (available / batchSize) 4 : ℕ) : ℚ)
            / ((min (available / batchSize) 4 : ℕ) : ℚ)) := by ring
      _ = 1/4 := by rw [div_self hne, mul_one]

/-- Witness for C4 at `d_ent_reg = 10`, 300 available replay samples,
`batch_size = 64` (so one replay batch is used), concrete loss and entropy
values. -/
theorem train_adv_d_mixture_weights_witness :
    (0 < 64) ∧
    ((train_adv_d 10 300 64 2 4 6 8 (fun _ => 3) (fun _ => 5)).loss
      = (1/2) * 2
        + (if min (300 / 64) 4 = 0 then (1/2 : ℚ) else 1/4) * 6
        + ((List.range (min (300 / 64) 4)).map
            (fun _ => (1/4 : ℚ) / ((min (300 / 64) 4 : ℕ) : ℚ) * 3)).sum
        - ((1/2) * 4
          + (if min (300 / 64) 4 = 0 then (1/2 : ℚ) else 1/4) * 8
          + ((List.range (min (300 / 64) 4)).map
              (fun _ => (1/4 : ℚ) / ((min (300 / 64) 4 : ℕ) : ℚ) * 5)).sum) * 10
      ∧ (0 < min (300 / 64) 4 →
          ((min (300 / 64) 4 : ℕ) : ℚ)
            * ((1/4 : ℚ) / ((min (300 / 64) 4 : ℕ) : ℚ)) = 1/4)) :=
  ⟨by norm_num,
   train_adv_d_mixture_weights 10 300 64 (by norm_num) 2 4 6 8
     (fun _ => 3) (fun _ => 5)⟩

/-- C5: the number of replay batches consumed by `_train_adv_d` equals
`min(len(replay_buffer_iter) // batch_size, 4)`; it never exceeds 4, and
the samples it consumes never exceed what the replay buffer has available
(the contribution is capped rather than failing). -/
theorem train_adv_d_rbuf_batches_capped (dEntReg : ℚ) (available batchSize : ℕ)
    (_hbs : 0 < batchSize) (lR eR lG eG : ℚ) (rbufLoss rbufEnt : ℕ → ℚ) :
    (train_adv_d dEntReg available batchSize
        lR eR lG eG rbufLoss rbufEnt).rbufBatchesUsed
        = min (available / batchSize) 4
      ∧ (train_adv_d dEntReg available batchSize
          lR eR lG eG rbufLoss rbufEnt).rbufBatchesUsed ≤ 4
      ∧ (train_adv_d dEntReg available batchSize
          lR eR lG eG rbufLoss rbufEnt).rbufBatchesUsed * batchSize
        ≤ available := by
  refine ⟨rfl, min_le_right _ _, ?_⟩
  calc min (available / batchSize) 4 * batchSize
      ≤ (available / batchSize) * batchSize :=
        Nat.mul_le_mul_right _ (min_le_left _ _)
    _ ≤ available := Nat.div_mul_le_self _ _

/-- Witness for C5 with 100 available replay samples and `batch_size = 64`:
only one replay batch fits, although up to 4 were requested. -/
theorem train_adv_d_rbuf_batches_capped_witness :
    (0 < 64) ∧
    ((train_adv_d 10 100 64 2 4 6 8 (fun _ => 3) (fun _ => 5)).rbufBatchesUsed
        = min (100 / 64) 4
      ∧ (train_adv_d 10 100 64 2 4 6 8
          (fun _ => 3) (fun _ => 5)).rbufBatchesUsed ≤ 4
      ∧ (train_adv_d 10 100 64 2 4 6 8
          (fun _ => 3) (fun _ => 5)).rbufBatchesUsed * 64 ≤ 100) :=
  ⟨by norm_num,
   train_adv_d_rbuf_batches_capped 10 100 64 (by norm_num) 2 4 6 8
     (fun _ => 3) (fun _ => 5)⟩


lemma flatten_map_map (f : ℝ → ℝ) (m : List (List ℝ)) :
    (m.map (List.map f)).flatten = m.flatten.map f :=
  (List.map_flatten f m).symm

lemma sum_map_sub_const (l : List ℝ) (c : ℝ) :
    (l.map (fun x => x - c)).sum = l.sum - l.length * c := by
  induction l with
  | nil => simp
  | cons x t ih =>
    simp [ih]
    ring

lemma sum_map_div (l : List ℝ) (c : ℝ) :
    (l.map (fun x => x / c)).sum = l.sum / c := by
  induction l with
  | nil => simp
  | cons x t ih => simp [ih, add_div]

lemma two_le_length_of_mem_ne (l : List ℝ) (a b : ℝ) (ha : a ∈ l) (hb : b ∈ l)
    (hab : a ≠ b) : 2 ≤ l.length := by
  match l with
  | [] => exact absurd ha (List.not_mem_nil a)
  | [x] =>
    rw [List.mem_singleton] at ha hb
    exact absurd (ha.trans hb.symm) hab
  | x :: y :: t =>
    simp only [List.length_cons]
    omega

lemma exists_ne_mean (l : List ℝ) (a b : ℝ) (ha : a ∈ l) (hb : b ∈ l)
    (hab : a ≠ b) : ∃ x ∈ l, x ≠ lmean l := by
  by_cases h : a = lmean l
  · refine ⟨b, hb, fun hbm => hab ?_⟩
    rw [h, hbm]
  · exact ⟨a, ha, h⟩

lemma sum_sq_dev_pos (l : List ℝ) (mu x : ℝ) (hx : x ∈ l) (hne : x ≠ mu) :
    0 < (l.map (fun y => (y - mu) ^ 2)).sum := by
  have hmem : (x - mu) ^ 2 ∈ l.map (fun y => (y - mu) ^ 2) :=
    List.mem_map_of_mem _ hx
  have hpos : 0 < (x - mu) ^ 2 :=
    pow_two_pos_of_ne_zero (sub_ne_zero.mpr hne)
  have hnonneg : ∀ y ∈ l.map (fun y => (y - mu) ^ 2), 0 ≤ y := by
    intro y hy
    rcases List.mem_map.mp hy with ⟨z, _, rfl⟩
    positivity
  exact lt_of_lt_of_le hpos (List.single_le_sum hnonneg _ hmem)

lemma sum_sq_map_div (l : List ℝ) (c : ℝ) :
    ((l.map (fun x => x / c)).map (fun x => x ^ 2)).sum
      = (l.map (fun x => x ^ 2)).sum / c ^ 2 := by
  induction l with
  | nil => simp
  | cons x t ih =>
    simp only [List.map_cons, List.sum_cons]
    rw [ih, div_pow, add_div]

lemma list_center_scale_spec (l : List ℝ) (a b : ℝ) (ha : a ∈ l) (hb : b ∈ l)
    (hab : a ≠ b) :
    lmean ((l.map (fun x => x - lmean l)).map
      (fun x => x / lstd (l.map (fun y => y - lmean l)))) = 0
    ∧ lstd ((l.map (fun x => x - lmean l)).map
      (fun x => x / lstd (l.map (fun y => y - lmean l)))) = 1 := by
  set mu := lmean l with hmu
  set l1 := l.map (fun x => x - mu) with hl1
  set sigma := lstd l1 with hsigma
  have hn2 : 2 ≤ l.length := two_le_length_of_mem_ne l a b ha hb hab
  have hnz : (l.length : ℝ) ≠ 0 := by
    have : l.length ≠ 0 := by omega
    exact_mod_cast this
  have hn1 : ((l.length : ℝ) - 1) ≠ 0 := by
    have : (2 : ℝ) ≤ (l.length : ℝ) := by exact_mod_cast hn2
    intro hzero
    nlinarith
  have hsum1 : l1.sum = 0 := by
    rw [hl1, sum_map_sub_const, hmu, lmean]
    field_simp
  have hlen1 : l1.length = l.length := by
    rw [hl1]
    exact List.length_map _ _
  have hmean1 : lmean l1 = 0 := by
    rw [lmean, hsum1, zero_div]
  have hv_eq : lvar l1 = (l.map (fun y => (y - mu) ^ 2)).sum
      / ((l.length : ℝ) - 1) := by
    rw [lvar, hmean1, hlen1]
    simp only [sub_zero]
    rw [hl1, List.map_map]
    rfl
  have hvpos : 0 < lvar l1 := by
    rw [hv_eq]
    apply div_pos
    · obtain ⟨x, hx, hxne⟩ := exists_ne_mean l a b ha hb hab
      exact sum_sq_dev_pos l mu x hx hxne
    · have : (2 : ℝ) ≤ (l.length : ℝ) := by exact_mod_cast hn2
      linarith
  have hspos : 0 < sigma := by
    rw [hsigma, lstd]
    exact Real.sqrt_pos.mpr hvpos
  have hsnz : sigma ≠ 0 := ne_of_gt hspos
  have hssq : sigma ^ 2 = lvar l1 := by
    rw [hsigma, lstd]
    exact Real.sq_sqrt hvpos.le
  have hsum2 : (l1.map (fun x => x / sigma)).sum = 0 := by
    rw [sum_map_div, hsum1, zero_div]
  have hmean2 : lmean (l1.map (fun x => x / sigma)) = 0 := by
    rw [lmean, hsum2, zero_div]
  refine ⟨hmean2, ?_⟩
  have hlen2 : (l1.map (fun x => x / sigma)).length = l.length := by
    rw [List.length_map, hlen1]
  have hS : (l1.map (fun x => x ^ 2)).sum = lvar l1 * ((l.length : ℝ) - 1) := by
    rw [lvar, hmean1, hlen1]
    simp only [sub_zero]
    field_simp
  have hvar2 : lvar (l1.map (fun x => x / sigma)) = 1 := by
    rw [lvar, hmean2]
    simp only [sub_zero]
    rw [hlen2, sum_sq_map_div, hS, hssq]
    have hvnz : lvar l1 ≠ 0 := ne_of_gt hvpos
    field_simp
  rw [lstd, hvar2, Real.sqrt_one]

/-- C2: for every reward matrix whose entries are not all equal,
the `_get_advantages` normalization (global mean subtraction followed by
division by the global standard deviation of the centered matrix) produces
advantages with global mean 0 and global standard deviation 1, and the
result is detached. -/
theorem get_advantages_global_normalization (m : List (List ℝ))
    (h : ∃ a ∈ m.flatten, ∃ b ∈ m.flatten, a ≠ b) :
    lmean (adv_normalize m).1.flatten = 0
    ∧ lstd (adv_normalize m).1.flatten = 1
    ∧ (adv_normalize m).2 = true := by
  obtain ⟨a, ha, b, hb, hab⟩ := h
  have hfl : (adv_normalize m).1.flatten
      = (m.flatten.map (fun x => x - lmean m.flatten)).map
          (fun x => x / lstd (m.flatten.map (fun y => y - lmean m.flatten))) := by
    simp only [adv_normalize]
    rw [flatten_map_map, flatten_map_map]
  rw [hfl]
  have key := list_center_scale_spec m.flatten a b ha hb hab
  exact ⟨key.1, key.2, rfl⟩

/-- Witness for C2 at the concrete non-constant 1 x 2 reward matrix
`[[0, 2]]`. -/
theorem get_advantages_global_normalization_witness :
    (∃ a ∈ ([[0, 2]] : List (List ℝ)).flatten,
      ∃ b ∈ ([[0, 2]] : List (List ℝ)).flatten, a ≠ b) ∧
    (lmean (adv_normalize [[0, 2]]).1.flatten = 0
      ∧ lstd (adv_normalize [[0, 2]]).1.flatten = 1
      ∧ (adv_normalize [[0, 2]]).2 = true) :=
  have h : ∃ a ∈ ([[0, 2]] : List (List ℝ)).flatten,
      ∃ b ∈ ([[0, 2]] : List (List ℝ)).flatten, a ≠ b :=
    ⟨0, by simp, 2, by simp, by norm_num⟩
  ⟨h, get_advantages_global_normalization [[0, 2]] h⟩

end SynthEnv

namespace QA

lemma foldl_set_length (vocab : String → ℕ) (ps : List (ℕ × String))
    (acc : List ℕ) :
    (ps.foldl (fun a p => a.set p.1 (vocab p.2)) acc).length = acc.length := by
  induction ps generalizing acc with
  | nil => rfl
  | cons p t ih => rw [List.foldl_cons, ih, List.length_set]

lemma foldl_set_getD_low (vocab : String → ℕ) (ps : List (ℕ × String))
    (acc : List ℕ) (j : ℕ) (d : ℕ) (h : ∀ p ∈ ps, j < p.1) :
    (ps.foldl (fun a p => a.set p.1 (vocab p.2)) acc).getD j d
      = acc.getD j d := by
  induction ps generalizing acc with
  | nil => rfl
  | cons p t ih =>
    rw [List.foldl_cons, ih _ (fun x hx => h x (List.mem_cons_of_mem _ hx))]
    have hj : p.1 ≠ j := Nat.ne_of_gt (h p (List.mem_cons_self _ _))
    rw [List.getD_eq_getElem?_getD, List.getD_eq_getElem?_getD,
      List.getElem?_set_ne hj]

/-- C10 (amended): for `seqlen >= 1`, `QADataset.__getitem__` returns a
token list of length `seqlen + 1` paired with label 1; the EOS index is
written at position `len(kept tokens)`; position 0 holds the BOS index
whenever the kept-token list is nonempty and the EOS index when it is
empty; a kept-token list obtained from the empty question is `[""]` (one
empty-string token) for `seqlen >= 2`, and the kept-token list is empty
for `seqlen = 1`, so EOS overwrites BOS at position 0 exactly when
`seqlen = 1`, not for an empty question. -/
theorem qa_getitem_corrected (vocab : String → ℕ) (bos eos : String)
    (seqlen : ℕ) (q : String) (hT : 1 ≤ seqlen) :
    (qaGetItem vocab bos eos seqlen q).1.length = seqlen + 1
    ∧ (qaGetItem vocab bos eos seqlen q).2 = 1
    ∧ (qaGetItem vocab bos eos seqlen q).1.getD (keptToks seqlen q).length 0
        = vocab eos
    ∧ (keptToks seqlen q ≠ [] →
        (qaGetItem vocab bos eos seqlen q).1.getD 0 0 = vocab bos)
    ∧ (keptToks seqlen q = [] →
        (qaGetItem vocab bos eos seqlen q).1.getD 0 0 = vocab eos)
    ∧ (2 ≤ seqlen → keptToks seqlen "" = [""])
    ∧ (seqlen = 1 → keptToks 1 q = []) := by
  have hklen : (keptToks seqlen q).length ≤ seqlen - 1 := by
    rw [keptToks]
    rw [if_neg (by omega)]
    simp [List.length_take]
  have hlen2 : ((List.enumFrom 1 (keptToks seqlen q)).foldl
      (fun a p => a.set p.1 (vocab p.2))
      ((List.replicate (seqlen + 1) 0).set 0 (vocab bos))).length
      = seqlen + 1 := by
    rw [foldl_set_length, List.length_set, List.length_replicate]
  refine ⟨?_, rfl, ?_, ?_, ?_, ?_, ?_⟩
  · simp only [qaGetItem]
    rw [List.length_set, hlen2]
  · simp only [qaGetItem]
    rw [List.getD_eq_getElem _ _ (by rw [List.length_set, hlen2]; omega),
      List.getElem_set_self]
  · intro hne
    have hpos : 0 < (keptToks seqlen q).length := List.length_pos.mpr hne
    simp only [qaGetItem]
    rw [List.getD_eq_getElem?_getD,
      List.getElem?_set_ne (by omega : (keptToks seqlen q).length ≠ 0),
      ← List.getD_eq_getElem?_getD,
      foldl_set_getD_low _ _ _ _ _
        (fun p hp => Nat.lt_of_lt_of_le Nat.zero_lt_one
          (List.le_fst_of_mem_enumFrom hp)),
      List.getD_eq_getElem _ _
        (by rw [List.length_set, List.length_replicate]; omega),
      List.getElem_set_self]
  · intro hnil
    simp only [qaGetItem, hnil, List.length_nil, List.enumFrom_nil,
      List.foldl_nil]
    rw [List.getD_eq_getElem _ _
        (by rw [List.length_set, List.length_set, List.length_replicate]; omega),
      List.getElem_set_self]
  · intro h2
    rw [keptToks]
    rw [if_neg (by omega)]
    have hsplit : pySplitSpace "" = [""] := rfl
    rw [hsplit]
    apply List.take_of_length_le
    simp
    omega
  · intro h1
    subst h1
    simp [keptToks]

/-- Witness for C10 at `seqlen = 3` and the two-word question `"x y"`. -/
theorem qa_getitem_corrected_witness :
    (1 ≤ 3) ∧
    ((qaGetItem qaTestVocab "<bos>" "<eos>" 3 "x y").1.length = 3 + 1
    ∧ (qaGetItem qaTestVocab "<bos>" "<eos>" 3 "x y").2 = 1
    ∧ (qaGetItem qaTestVocab "<bos>" "<eos>" 3 "x y").1.getD
        (keptToks 3 "x y").length 0 = qaTestVocab "<eos>"
    ∧ (keptToks 3 "x y" ≠ [] →
        (qaGetItem qaTestVocab "<bos>" "<eos>" 3 "x y").1.getD 0 0
          = qaTestVocab "<bos>")
    ∧ (keptToks 3 "x y" = [] →
        (qaGetItem qaTestVocab "<bos>" "<eos>" 3 "x y").1.getD 0 0
          = qaTestVocab "<eos>")
    ∧ (2 ≤ 3 → keptToks 3 "" = [""])
    ∧ (3 = 1 → keptToks 1 "x y" = [])) :=
  ⟨by decide,
   qa_getitem_corrected qaTestVocab "<bos>" "<eos>" 3 "x y" (by decide)⟩

/-- Counterexample to C10 as stated: for the empty question with
`seqlen = 21` (the repository's own test configuration), Python splitting
keeps one empty-string token, so EOS is written at position 1 while
position 0 still holds BOS — EOS does not overwrite BOS at position 0. -/
theorem qa_getitem_empty_question_counterexample :
    keptToks 21 "" = [""]
    ∧ (qaGetItem qaTestVocab "<bos>" "<eos>" 21 "").1.getD 0 99
        = qaTestVocab "<bos>"
    ∧ (qaGetItem qaTestVocab "<bos>" "<eos>" 21 "").1.getD 1 99
        = qaTestVocab "<eos>"
    ∧ ¬ ((qaGetItem qaTestVocab "<bos>" "<eos>" 21 "").1.getD 0 99
        = qaTestVocab "<eos>") := by
  refine ⟨by decide, by decide, by decide, by decide⟩

end QA
